import Mathlib

/-!
# Verification of ttgen (truth table generator)

Shallow embedding of the mature rendition of `ttgen.c` (the variant with the
`EQU` operator, strict error reporting and `/`-directives), together with
proofs about its parser, evaluator and table driver.

Conventions of the embedding:
* The evaluation stack and the parser's operator side-stack are Lean lists
  whose head is the top of the stack (`stack[sp-1]`).
* The C `evaluate` returns an `int`: `-1` on stack overflow, `-2` on
  underflow, `-3` when the stack does not hold exactly one value at the end,
  and otherwise the boolean result `0`/`1`.  We keep that signature (`Int`).
* The C variable push is `!!(bits & (1 << node[i].id))` where `1` is a 32-bit
  `int`; for `id < 31` this is exactly "test bit `id` of `bits`", which the
  main embedding uses (`Nat.testBit`).  The 32-bit realization of the shift,
  which diverges for `id ≥ 31`, is modelled separately as `shl1Int32` below.
-/

namespace Ttgen

/-- `enum oper { OP_OR, OP_AND, OP_XOR, OP_NAND, OP_NOR, OP_IMP, OP_EQU }`. -/
inductive Oper
  | OR | AND | XOR | NAND | NOR | IMP | EQU
deriving DecidableEq, Repr

/-- Expression nodes (`struct Node`): only `VARIABLE`, `OPERATOR` and `NOT`
typed nodes are ever emitted by `output()`. -/
inductive Node
  | var (id : Nat)
  | op (o : Oper)
  | not
deriving DecidableEq, Repr

/-- `#define STACK_MAX 128`. -/
def STACK_MAX : Nat := 128

/-- `#define VAR_MAX 64`. -/
def VAR_MAX : Nat := 64

/-- The `switch(node[i].id)` computing `r` from the popped operands `a` and
`b` in `evaluate` (`b` is popped first, i.e. `b` was the top of the stack). -/
def opRule : Oper → Bool → Bool → Bool
  | .OR,   a, b => a || b
  | .AND,  a, b => a && b
  | .XOR,  a, b => a != b
  | .NAND, a, b => !(a && b)
  | .NOR,  a, b => !(a || b)
  | .IMP,  a, b => !a || b
  | .EQU,  a, b => a == b

/-- The loop body of `evaluate`: walk the node list against an explicit
stack.  Mirrors the C code case by case: a variable push is guarded by
`sp >= STACK_MAX`; an operator first requires `sp > 1`, pops `b` then `a`,
and re-checks `sp >= STACK_MAX` before pushing; `NOT` negates the top in
place; at the end exactly one value must remain (`-3` otherwise). -/
def evalGo (bits : Nat) : List Node → List Bool → Int
  | [], [v] => if v then 1 else 0
  | [], [] => -3
  | [], _ :: _ :: _ => -3
  | .var id :: ns, s =>
      if s.length ≥ STACK_MAX then -1
      else evalGo bits ns (Nat.testBit bits id :: s)
  | .op _ :: _, [] => -2
  | .op _ :: _, [_] => -2
  | .op o :: ns, b :: a :: t =>
      if t.length ≥ STACK_MAX then -1
      else evalGo bits ns (opRule o a b :: t)
  | .not :: _, [] => -2
  | .not :: ns, v :: t => evalGo bits ns ((!v) :: t)

/-- `static int evaluate(uint64_t bits)` run on the node sequence `ns`. -/
def evaluate (ns : List Node) (bits : Nat) : Int :=
  evalGo bits ns []

/-- The 32-bit `int` expression `1 << id` of the C variable push, as realized
on two's-complement hardware that masks shift counts to 5 bits (e.g. x86),
converted to `uint64_t` for the `&` with `bits`: for a shift count of 31 the
`int` value is `INT_MIN`, which sign-extends to 64 bits. -/
def shl1Int32 (id : Nat) : Nat :=
  if id % 32 = 31 then 0xFFFFFFFF80000000 else 2 ^ (id % 32)

/-- `!!(bits & (1 << id))` with `bits : uint64_t` and `1 << id` the 32-bit
shift modelled by `shl1Int32`. -/
def cVarBit (bits id : Nat) : Bool :=
  (bits % 2 ^ 64) &&& shl1Int32 id != 0

/-! ## Tokenizer (`next_token`) -/

/-- `enum type` values that `next_token` can give a token.  Variable tokens
carry their text; operator tokens carry the resolved operator (resolution by
name/short form is deterministic, so carrying it is equivalent to the C
code's later `oper_id` call on the token text). -/
inductive Tok
  | var (name : String)
  | op (o : Oper)
  | lparen
  | rparen
  | not
  | slashvars
  | unknown
deriving DecidableEq, Repr

/-- `#define WHITESPACE " \n\t"`. -/
def isWhite (c : Char) : Bool :=
  c == ' ' || c == Char.ofNat 10 || c == Char.ofNat 9

/-- `isalpha` in the C locale: the `LETTER` set. -/
def isLetterAZ (c : Char) : Bool :=
  (Char.ofNat 97 ≤ c && c ≤ Char.ofNat 122) || (Char.ofNat 65 ≤ c && c ≤ Char.ofNat 90)

/-- The `LETTER NUMBER "_'"` character set used by `strspn` for words
(apostrophe is `Char.ofNat 39`). -/
def isWordChar (c : Char) : Bool :=
  isLetterAZ c || (Char.ofNat 48 ≤ c && c ≤ Char.ofNat 57) || c == Char.ofNat 95 ||
    c == Char.ofNat 39

/-- Uppercase an ASCII letter, for `strcasecmp`. -/
def upChar (c : Char) : Char :=
  if Char.ofNat 97 ≤ c && c ≤ Char.ofNat 122 then Char.ofNat (c.toNat - 32) else c

/-- `strcasecmp(s, t) == 0`. -/
def ciEq (s t : List Char) : Bool :=
  s.map upChar == t.map upChar

/-- `memcmp(input_ptr, pat, strlen(pat)) == 0` on the remaining input. -/
def startsWith : List Char → List Char → Bool
  | [], _ => true
  | _ :: _, [] => false
  | p :: ps, c :: cs => p == c && startsWith ps cs

/-- `static char *operator[] = { "OR", "AND", "XOR", "NAND", "NOR", "IMP",
"EQU", NULL }`, paired with the operator ids their indices denote. -/
def operNames : List (String × Oper) :=
  [("OR", .OR), ("AND", .AND), ("XOR", .XOR), ("NAND", .NAND),
   ("NOR", .NOR), ("IMP", .IMP), ("EQU", .EQU)]

/-- Case-insensitive scan of `operator[]` (first match wins, as in
`next_token` and `oper_id`). -/
def operOfWord (w : List Char) : Option Oper :=
  (operNames.find? (fun p => ciEq w p.1.data)).map (fun p => p.2)

/-- `static char *short_op[] = { "|", "&", "^", "", "", "->", "=", NULL }`,
with the empty entries (NAND, NOR) skipped as the scan loop does. -/
def shortOps : List (String × Oper) :=
  [("|", .OR), ("&", .AND), ("^", .XOR), ("->", .IMP), ("=", .EQU)]

/-- The `short_op` scan: first entry whose text is a prefix of the remaining
input, together with how many characters it consumes. -/
def shortOpAt (cs : List Char) : Option (Oper × Nat) :=
  (shortOps.find? (fun p => startsWith p.1.data cs)).map (fun p => (p.2, p.1.length))

/-- `strspn(input_ptr, LETTER NUMBER "_'")`: split off the maximal word
prefix. -/
def takeWord : List Char → List Char × List Char
  | [] => ([], [])
  | c :: cs =>
      if isWordChar c then
        let (w, r) := takeWord cs
        (c :: w, r)
      else ([], c :: cs)

/-- One step of `next_token`: skip whitespace, then in priority order the
single characters `(` `)` `/`, the symbolic forms (only when the current
character is not a letter; `!` first, then the `short_op` scan), then a word
(`NOT` / operator name / variable); a position where no token starts yields
`UNKNOWN` and consumes nothing. -/
def nextTok (input : List Char) : Option (Tok × List Char) :=
  match List.dropWhile isWhite input with
  | [] => none
  | c :: rest =>
      if c == '(' then some (.lparen, rest)
      else if c == ')' then some (.rparen, rest)
      else if c == '/' then some (.slashvars, rest)
      else
        let symb : Option (Tok × List Char) :=
          if isLetterAZ c then none
          else if c == '!' then some (.not, rest)
          else match shortOpAt (c :: rest) with
            | some (o, n) => some (.op o, List.drop n (c :: rest))
            | none => none
        match symb with
        | some res => some res
        | none =>
            match takeWord (c :: rest) with
            | ([], _) => some (.unknown, c :: rest)
            | (w, r) =>
                if ciEq w "NOT".data then some (.not, r)
                else match operOfWord w with
                  | some o => some (.op o, r)
                  | none => some (.var (String.mk w), r)

/-- Token stream of one input line.  The `main` loop aborts the line at the
first `UNKNOWN` token (which consumes no input), so the stream ends there.
Fuel is the remaining length plus one; every non-`UNKNOWN` token consumes at
least one character. -/
def tokensFrom : Nat → List Char → List Tok
  | 0, _ => []
  | fuel + 1, cs =>
      match nextTok cs with
      | none => []
      | some (.unknown, _) => [.unknown]
      | some (t, rest) => t :: tokensFrom fuel rest

/-- Tokenize one raw input line. -/
def tokenize (s : String) : List Tok :=
  tokensFrom (s.length + 1) s.data

/-! ## Parser (the shunting-yard loop of `main`) -/

/-- Tokens that `main` pushes on its side-stack: operators, `NOT`, and
`LPAREN` barriers. -/
inductive StkTok
  | op (o : Oper)
  | not
  | lparen
deriving DecidableEq, Repr

/-- The per-line error diagnostics of `main` (all printed to stderr followed
by `goto cleanup`). -/
inductive PErr
  | unexpectedChar
  | nonVarInSlash
  | embeddedSlash
  | stackOverflow
  | mismatchedParens
deriving DecidableEq, Repr

/-- Outcome of parsing one line: a completed expression (registry and postfix
nodes), a completed `/`-directive line (registry only), a per-line error, or
the fatal `die` of `var_id` when `VAR_MAX` is exceeded. -/
inductive PResult
  | ok (vars : List String) (nodes : List Node)
  | slashOk (vars : List String)
  | err (e : PErr)
  | fatal
deriving DecidableEq, Repr

/-- Parser state: the variable registry (in id order), the emitted nodes, the
operator side-stack (head = top), the `first_token` flag and the
`slashvar_mode` flag. -/
structure PState where
  vars : List String
  nodes : List Node
  stk : List StkTok
  first : Bool
  slash : Bool
deriving DecidableEq, Repr

/-- `static int var_id(const char *var_name)`: position of the name in the
registry, creating it at the end if absent; `none` models the `die` when the
registry already holds `VAR_MAX` names. -/
def var_id (vars : List String) (name : String) : Option (List String × Nat) :=
  match vars.findIdx? (fun v => v == name) with
  | some i => some (vars, i)
  | none =>
      if vars.length ≥ VAR_MAX then none
      else some (vars ++ [name], vars.length)

/-- The OPERATOR case's pop loop: pop and output while the top of the
side-stack is an operator or `NOT`. -/
def popOps : List StkTok → List Node × List StkTok
  | .op o :: rest =>
      let (ns, st) := popOps rest
      (.op o :: ns, st)
  | .not :: rest =>
      let (ns, st) := popOps rest
      (.not :: ns, st)
  | s => ([], s)

/-- The RPAREN case's pop loop: pop and output until an `LPAREN` is found
(which is discarded); `none` if the stack empties first. -/
def popToLparen : List StkTok → Option (List Node × List StkTok)
  | [] => none
  | .lparen :: rest => some ([], rest)
  | .op o :: rest =>
      (popToLparen rest).map (fun p => (.op o :: p.1, p.2))
  | .not :: rest =>
      (popToLparen rest).map (fun p => (.not :: p.1, p.2))

/-- The end-of-line drain: output everything left on the side-stack; `none`
(mismatched parentheses) if an `LPAREN` surfaces. -/
def drain : List StkTok → Option (List Node)
  | [] => some []
  | .lparen :: _ => none
  | .op o :: rest => (drain rest).map (fun l => .op o :: l)
  | .not :: rest => (drain rest).map (fun l => .not :: l)

/-- Process one token, mirroring the body of the token loop of `main`:
the `UNKNOWN` check comes first, then slashvar mode, then the expression-mode
`switch`.  `Except.error` is an early exit from the line (`goto cleanup`, or
the fatal `die`, or the end of a successful parse). -/
def parseStep (st : PState) (t : Tok) : Except PResult PState :=
  if st.slash then
    match t with
    | .unknown => .error (.err .unexpectedChar)
    | .var name =>
        match var_id st.vars name with
        | none => .error .fatal
        | some (vars2, _) => .ok { st with vars := vars2, first := false }
    | .op _ => .error (.err .nonVarInSlash)
    | .lparen => .error (.err .nonVarInSlash)
    | .rparen => .error (.err .nonVarInSlash)
    | .not => .error (.err .nonVarInSlash)
    | .slashvars => .error (.err .nonVarInSlash)
  else
    match t with
      | .var name =>
          match var_id st.vars name with
          | none => .error .fatal
          | some (vars2, id) =>
              .ok { st with vars := vars2, nodes := st.nodes ++ [.var id], first := false }
      | .op o =>
          let (outNs, stk2) := popOps st.stk
          if stk2.length ≥ STACK_MAX then .error (.err .stackOverflow)
          else .ok { st with nodes := st.nodes ++ outNs, stk := .op o :: stk2, first := false }
      | .lparen =>
          if st.stk.length ≥ STACK_MAX then .error (.err .stackOverflow)
          else .ok { st with stk := .lparen :: st.stk, first := false }
      | .rparen =>
          match popToLparen st.stk with
          | none => .error (.err .mismatchedParens)
          | some (outNs, stk2) =>
              .ok { st with nodes := st.nodes ++ outNs, stk := stk2, first := false }
      | .not =>
          if st.stk.length ≥ STACK_MAX then .error (.err .stackOverflow)
          else .ok { st with stk := .not :: st.stk, first := false }
      | .slashvars =>
          if st.first then .ok { st with vars := [], first := false, slash := true }
          else .error (.err .embeddedSlash)
      | .unknown => .error (.err .unexpectedChar)

/-- End of line: a slashvar line keeps its registry and emits nothing; an
expression line drains the side-stack (mismatched parentheses if an `LPAREN`
remains). -/
def finishLine (st : PState) : PResult :=
  if st.slash then .slashOk st.vars
  else match drain st.stk with
    | none => .err .mismatchedParens
    | some outNs => .ok st.vars (st.nodes ++ outNs)

/-- The token loop of `main` over one line. -/
def parseGo (st : PState) : List Tok → PResult
  | [] => finishLine st
  | t :: ts =>
      match parseStep st t with
      | .error r => r
      | .ok st2 => parseGo st2 ts

/-- Initial per-line state: the registry may carry over from a preceding
`/`-directive line; everything else is fresh. -/
def initState (vars : List String) : PState :=
  { vars := vars, nodes := [], stk := [], first := true, slash := false }

/-- Parse one line's token stream starting from registry `vars`. -/
def parseLine (vars : List String) (ts : List Tok) : PResult :=
  parseGo (initState vars) ts

/-! ## Table driver (`print_table`) and line driver (`main`) -/

/-- The three structural evaluation failures distinguished by the pre-check
in `print_table` (`-1`, `-2`, `-3`). -/
inductive EvalFail
  | overflow
  | underflow
  | leftover
deriving DecidableEq, Repr

/-- A printed truth table: the header of variable names and, per assignment,
the displayed variable bits (in column order, the `"FT"[...]` characters as
booleans) and the printed result value. -/
structure Table where
  header : List String
  rows : List (List Bool × Int)
deriving DecidableEq, Repr

/-- The countdown `for(i = m - 1; i != -1; i--)`: the masks `m-1, …, 0`. -/
def countdown : Nat → List Nat
  | 0 => []
  | m + 1 => m :: countdown m

/-- Row enumeration order of `print_table`: bitmask `2^n - 1` down to `0`. -/
def rowMasks (n : Nat) : List Nat :=
  countdown (2 ^ n)

/-- One printed row for mask `i`: bit `b` of `i` for each column `b < n`
(`!!(i & (1 << b))`), then `evaluate(i)`. -/
def tableRow (n : Nat) (ns : List Node) (i : Nat) : List Bool × Int :=
  ((List.range n).map (fun b => Nat.testBit i b), evaluate ns i)

/-- `static void print_table(void)`: one evaluation at bitmask `0` first; a
negative result reports the matching failure and prints nothing; otherwise
the header plus one row per mask in `rowMasks` order. -/
def printTable (vars : List String) (ns : List Node) : Except EvalFail Table :=
  let fail := evaluate ns 0
  if fail < 0 then
    .error (if fail = -1 then .overflow else if fail = -2 then .underflow else .leftover)
  else
    .ok { header := vars
          rows := (rowMasks vars.length).map (tableRow vars.length ns) }

/-- Observable outcome of one input line. -/
inductive LineOut
  | table (t : Table)
  | perr (e : PErr)
  | everr (e : EvalFail)
  | directive
  | fatal
deriving DecidableEq, Repr

/-- One iteration of the `fgets` loop: parse the line, print its table (or an
error), and produce the registry left for the next line.  The `cleanup` path
of every non-directive line calls `clear_vars()`, so only a slashvar line
carries a registry forward. -/
def processLine (vars : List String) (ts : List Tok) : LineOut × List String :=
  match parseLine vars ts with
  | .ok vars2 nodes =>
      (match printTable vars2 nodes with
       | .ok t => .table t
       | .error e => .everr e, [])
  | .slashOk vars2 => (.directive, vars2)
  | .err e => (.perr e, [])
  | .fatal => (.fatal, [])

/-- The whole `fgets` loop: one outcome per line; `die` ends the program at
once. -/
def runLines (vars : List String) : List (List Tok) → List LineOut
  | [] => []
  | l :: ls =>
      match processLine vars l with
      | (.fatal, _) => [.fatal]
      | (out, vars2) => out :: runLines vars2 ls

/-- Header of a line's table, `[]` when the line printed none. -/
def headerOf : LineOut → List String
  | .table t => t.header
  | _ => []

/-! ## Claim theorems -/

/-- **C1.** For every binary operator node evaluated with at least two values
on the stack (and room to push the result back), the evaluator pops `b` then
`a` — `b` being the more recently pushed, i.e. the top of the stack — and
pushes the boolean result of the exact rule for that operator:
OR = a∨b, AND = a∧b, XOR = a≠b, NAND = ¬(a∧b), NOR = ¬(a∨b),
IMPLIES = ¬a∨b, EQUIV = a=b. -/
theorem evaluate_operator_rule (bits : Nat) (o : Oper) (ns : List Node)
    (a b : Bool) (t : List Bool) (h : t.length < STACK_MAX) :
    evalGo bits (.op o :: ns) (b :: a :: t) = evalGo bits ns (opRule o a b :: t) ∧
    (opRule .OR a b = true ↔ (a = true ∨ b = true)) ∧
    (opRule .AND a b = true ↔ (a = true ∧ b = true)) ∧
    (opRule .XOR a b = true ↔ a ≠ b) ∧
    (opRule .NAND a b = true ↔ ¬(a = true ∧ b = true)) ∧
    (opRule .NOR a b = true ↔ ¬(a = true ∨ b = true)) ∧
    (opRule .IMP a b = true ↔ (¬a = true ∨ b = true)) ∧
    (opRule .EQU a b = true ↔ a = b) := by
  refine ⟨?_, ?_, ?_, ?_, ?_, ?_, ?_, ?_⟩
  · simp only [evalGo, ge_iff_le, if_neg (Nat.not_le.mpr h)]
  all_goals cases a <;> cases b <;> simp [opRule]

/-- Witness for `evaluate_operator_rule` at a concrete instance: IMPLIES on
stack `[true, false]` (so `b = true` on top, `a = false` below) pushes
`¬a∨b`. -/
theorem evaluate_operator_rule_witness :
    ([] : List Bool).length < STACK_MAX ∧
      evalGo 5 (.op .IMP :: []) [true, false] = evalGo 5 [] [opRule .IMP false true] :=
  ⟨by decide, (evaluate_operator_rule 5 .IMP [] false true [] (by decide)).1⟩

/-- **C2** (counterexample).  `A OR B AND C` does *not* parse as
`A OR (B AND C)`: the emitted postfix is `A B OR C AND`, and at the
assignment A=1, B=0, C=0 (bitmask 1) it evaluates to 0 while
A ∨ (B ∧ C) = 1. -/
theorem parse_or_and_right_assoc_cex :
    parseLine [] (tokenize "A OR B AND C") =
      .ok ["A", "B", "C"] [.var 0, .var 1, .op .OR, .var 2, .op .AND] ∧
    evaluate [.var 0, .var 1, .op .OR, .var 2, .op .AND] 1 = 0 ∧
    (if Nat.testBit 1 0 || (Nat.testBit 1 1 && Nat.testBit 1 2) then (1 : Int) else 0) = 1 := by
  refine ⟨by decide, by decide, by decide⟩

/-- **C2** (amended).  `A OR B AND C` parses left-associatively as
`(A OR B) AND C`: for every truth assignment the evaluated result equals
(A ∨ B) ∧ C. -/
theorem parse_or_and_left_assoc :
    parseLine [] (tokenize "A OR B AND C") =
      .ok ["A", "B", "C"] [.var 0, .var 1, .op .OR, .var 2, .op .AND] ∧
    ∀ bits : Nat,
      evaluate [.var 0, .var 1, .op .OR, .var 2, .op .AND] bits =
        if (Nat.testBit bits 0 || Nat.testBit bits 1) && Nat.testBit bits 2 then 1 else 0 := by
  exact ⟨by decide, fun bits => rfl⟩

/-- **C4** (counterexample).  The line `A B` is consumed by the parser
without any error (it parses to the postfix sequence `A B`), yet evaluating
that sequence leaves two values on the stack (`-3`, Malformed Expression), so
the leftover-stack failure is reachable from user input. -/
theorem parser_ok_leftover_cex :
    parseLine [] (tokenize "A B") = .ok ["A", "B"] [.var 0, .var 1] ∧
    evaluate [.var 0, .var 1] 0 = -3 := by
  refine ⟨by decide, by decide⟩

/-- **C4** (amended).  The parser does not validate operand/operator arity,
so the Malformed Expression (leftover-stack) failure *is* reachable from user
input: `A B` parses without error, its evaluation returns `-3`, the driver
reports the stack-not-empty error without printing any table, and processing
continues with the next input line. -/
theorem leftover_reachable_reported :
    parseLine [] (tokenize "A B") = .ok ["A", "B"] [.var 0, .var 1] ∧
    evaluate [.var 0, .var 1] 0 = -3 ∧
    processLine [] (tokenize "A B") = (.everr .leftover, []) ∧
    runLines [] [tokenize "A B", tokenize "A"] =
      [.everr .leftover, .table { header := ["A"], rows := [([true], 1), ([false], 0)] }] := by
  refine ⟨by decide, by decide, by decide, by decide⟩

/-- **C5.**  The C variable push `!!(bits & (1 << id))` uses a 32-bit `int`
shift: as realized on two's-complement hardware with masked shift counts, at
variable id 32 and bitmask `2^32` it pushes `false`, while the specified
truth value `(bitmask >> 32) & 1` is `1` — bit k of the bitmask does *not*
represent variable k over the whole range `[0, VAR_MAX)`. -/
theorem var_push_bit32_bug :
    cVarBit (2 ^ 32) 32 = false ∧ (2 ^ 32) >>> 32 &&& 1 = 1 := by
  refine ⟨by decide, by decide⟩

/-- **C6.**  Unary NOT binds tighter than every binary operator: the line
`NOT A AND B` parses to the postfix sequence `A NOT B AND`, i.e.
`(NOT A) AND B`, so its value at every assignment is (¬A) ∧ B, and at
A=1, B=1 (bitmask 3) the result is 0. -/
theorem not_binds_tighter :
    parseLine [] (tokenize "NOT A AND B") =
      .ok ["A", "B"] [.var 0, .not, .var 1, .op .AND] ∧
    (∀ bits : Nat,
      evaluate [.var 0, .not, .var 1, .op .AND] bits =
        if (!Nat.testBit bits 0) && Nat.testBit bits 1 then 1 else 0) ∧
    evaluate [.var 0, .not, .var 1, .op .AND] 3 = 0 := by
  exact ⟨by decide, fun bits => rfl, by decide⟩

/-- **C3** (counterexample).  After the directive line `/ B A`, the first
expression line `A AND B` is printed with columns `B A`, but the registry
does *not* persist: the same expression on the next line is printed with
first-seen column order `A B`, because the per-line cleanup clears the
variables after every expression line. -/
theorem directive_not_persistent_cex :
    (runLines [] [tokenize "/ B A", tokenize "A AND B", tokenize "A AND B"]).map headerOf =
      [[], ["B", "A"], ["A", "B"]] ∧
    (["A", "B"] : List String) ≠ ["B", "A"] := by
  refine ⟨by decide, by decide⟩

/-- **C3** (amended).  A `/`-directive line clears the registry and then
repopulates it in the order the names appear (independently of any previous
registry), and that order gives the column order of the *next* expression
line only: every expression line's cleanup clears the registry, so a second
expression line reverts to first-seen order. -/
theorem directive_first_line_only (vars : List String) :
    processLine vars (tokenize "/ B A") = (.directive, ["B", "A"]) ∧
    (∀ (vars0 : List String) (ts : List Tok) (t : Table) (vars2 : List String),
        processLine vars0 ts = (.table t, vars2) → vars2 = []) ∧
    (runLines [] [tokenize "/ B A", tokenize "A AND B", tokenize "A AND B"]).map headerOf =
      [[], ["B", "A"], ["A", "B"]] := by
  refine ⟨rfl, ?_, by decide⟩
  intro vars0 ts t vars2 h
  unfold processLine at h
  cases hp : parseLine vars0 ts <;> rw [hp] at h
  case ok v n =>
    cases hpt : printTable v n <;> simp [hpt] at h
    exact h.2
  case slashOk v => simp at h
  case err e => simp at h
  case fatal => simp at h

/-- Witness for `directive_first_line_only`: the directive applied from a
nonempty incoming registry, and the registry-clearing conjunct discharged at
the concrete line `A AND B`. -/
theorem directive_first_line_only_witness :
    processLine ["X"] (tokenize "/ B A") = (.directive, ["B", "A"]) ∧
      ([] : List String) = [] :=
  ⟨(directive_first_line_only ["X"]).1,
   (directive_first_line_only []).2.1 [] (tokenize "A AND B")
     { header := ["A", "B"],
       rows := [([true, true], 1), ([false, true], 0), ([true, false], 0), ([false, false], 0)] }
     [] (by decide)⟩

/-- The RPAREN pop loop finds no `LPAREN` exactly when none is on the
side-stack. -/
theorem popToLparen_eq_none (s : List StkTok) (h : ∀ x ∈ s, x ≠ StkTok.lparen) :
    popToLparen s = none := by
  induction s with
  | nil => rfl
  | cons x rest ih =>
    cases x with
    | lparen => exact absurd rfl (h _ (List.mem_cons_self _ _))
    | op o => simp [popToLparen, ih (fun y hy => h y (List.mem_cons_of_mem _ hy))]
    | not => simp [popToLparen, ih (fun y hy => h y (List.mem_cons_of_mem _ hy))]

/-- The end-of-line drain fails exactly when an `LPAREN` is still on the
side-stack. -/
theorem drain_eq_none (s : List StkTok) (h : StkTok.lparen ∈ s) : drain s = none := by
  induction s with
  | nil => simp at h
  | cons x rest ih =>
    cases x with
    | lparen => rfl
    | op o =>
      have hr : StkTok.lparen ∈ rest := by simpa using h
      simp [drain, ih hr]
    | not =>
      have hr : StkTok.lparen ∈ rest := by simpa using h
      simp [drain, ih hr]

/-- **C7.**  Unbalanced parentheses are always reported: (i) a `)` token
processed in expression mode with no `(` anywhere on the side-stack fails the
line with Mismatched Parentheses; (ii) if a `(` is still on the side-stack at
end of line, the line fails with Mismatched Parentheses; (iii) any line whose
parse fails with Mismatched Parentheses produces only the error diagnostic —
no table — and the program continues with the next input line (with a freshly
cleared registry). -/
theorem mismatched_parens_reported :
    (∀ st : PState, st.slash = false → (∀ x ∈ st.stk, x ≠ StkTok.lparen) →
        parseStep st .rparen = .error (.err .mismatchedParens)) ∧
    (∀ st : PState, st.slash = false → StkTok.lparen ∈ st.stk →
        finishLine st = .err .mismatchedParens) ∧
    (∀ (vars : List String) (ts : List Tok) (ls : List (List Tok)),
        parseLine vars ts = .err .mismatchedParens →
        runLines vars (ts :: ls) = .perr .mismatchedParens :: runLines [] ls) := by
  refine ⟨?_, ?_, ?_⟩
  · intro st hs hstk
    simp [parseStep, hs, popToLparen_eq_none st.stk hstk]
  · intro st hs hmem
    simp [finishLine, hs, drain_eq_none st.stk hmem]
  · intro vars ts ls h
    simp [runLines, processLine, h]

/-- Witness for `mismatched_parens_reported`: a `)` with an operator-only
side-stack, an end of line with a leftover `(`, and the concrete line
`A AND B)` followed by another line. -/
theorem mismatched_parens_reported_witness :
    parseStep { vars := [], nodes := [], stk := [.op .AND], first := false, slash := false }
        .rparen = .error (.err .mismatchedParens) ∧
    finishLine { vars := [], nodes := [], stk := [.lparen], first := false, slash := false } =
      .err .mismatchedParens ∧
    runLines [] [tokenize "A AND B)", tokenize "A"] =
      .perr .mismatchedParens :: runLines [] [tokenize "A"] :=
  ⟨mismatched_parens_reported.1 _ rfl (by decide),
   mismatched_parens_reported.2.1 _ rfl (by decide),
   mismatched_parens_reported.2.2 [] _ _ (by decide)⟩

/-- Whether `evalGo` fails depends only on the node sequence and the stack
*depth*, never on the assignment bits or the stacked values: runs from stacks
of equal length fail together. -/
theorem evalGo_neg_iff (ns : List Node) :
    ∀ (b1 b2 : Nat) (s1 s2 : List Bool), s1.length = s2.length →
      (evalGo b1 ns s1 < 0 ↔ evalGo b2 ns s2 < 0) := by
  induction ns with
  | nil =>
    intro b1 b2 s1 s2 h
    cases s1 with
    | nil =>
      cases s2 with
      | nil => exact Iff.rfl
      | cons w t2 => simp at h
    | cons v t1 =>
      cases s2 with
      | nil => simp at h
      | cons w t2 =>
        cases t1 with
        | nil =>
          cases t2 with
          | nil => cases v <;> cases w <;> simp [evalGo]
          | cons w2 t3 => simp at h
        | cons v2 t3 =>
          cases t2 with
          | nil => simp at h
          | cons w2 t4 => exact Iff.rfl
  | cons n ns ih =>
    intro b1 b2 s1 s2 h
    cases n with
    | var id =>
      simp only [evalGo]
      rw [h]
      by_cases hl : s2.length ≥ STACK_MAX
      · simp [hl]
      · simp only [if_neg hl]
        exact ih b1 b2 _ _ (by simp [h])
    | op o =>
      cases s1 with
      | nil =>
        cases s2 with
        | nil => exact Iff.rfl
        | cons w t2 => simp at h
      | cons v t1 =>
        cases s2 with
        | nil => simp at h
        | cons w t2 =>
          cases t1 with
          | nil =>
            cases t2 with
            | nil => exact Iff.rfl
            | cons w2 t3 => simp at h
          | cons v2 t3 =>
            cases t2 with
            | nil => simp at h
            | cons w2 t4 =>
              have ht : t3.length = t4.length := by simpa using h
              simp only [evalGo]
              rw [ht]
              by_cases hl : t4.length ≥ STACK_MAX
              · simp [hl]
              · simp only [if_neg hl]
                exact ih b1 b2 _ _ (by simp [ht])
    | not =>
      cases s1 with
      | nil =>
        cases s2 with
        | nil => exact Iff.rfl
        | cons w t2 => simp at h
      | cons v t1 =>
        cases s2 with
        | nil => simp at h
        | cons w t2 =>
          simp only [evalGo]
          exact ih b1 b2 _ _ (by simpa using h)

/-- `evaluate` only ever returns `-3`, `-2`, `-1`, `0` or `1`. -/
theorem evalGo_mem (ns : List Node) :
    ∀ (bits : Nat) (s : List Bool),
      evalGo bits ns s = -3 ∨ evalGo bits ns s = -2 ∨ evalGo bits ns s = -1 ∨
        evalGo bits ns s = 0 ∨ evalGo bits ns s = 1 := by
  induction ns with
  | nil =>
    intro bits s
    cases s with
    | nil => simp [evalGo]
    | cons v t =>
      cases t with
      | nil => cases v <;> simp [evalGo]
      | cons w t2 => simp [evalGo]
  | cons n ns ih =>
    intro bits s
    cases n with
    | var id =>
      simp only [evalGo]
      by_cases hl : s.length ≥ STACK_MAX
      · simp [hl]
      · simpa [hl] using ih bits (Nat.testBit bits id :: s)
    | op o =>
      cases s with
      | nil => simp [evalGo]
      | cons v t =>
        cases t with
        | nil => simp [evalGo]
        | cons w t2 =>
          simp only [evalGo]
          by_cases hl : t2.length ≥ STACK_MAX
          · simp [hl]
          · simpa [hl] using ih bits (opRule o w v :: t2)
    | not =>
      cases s with
      | nil => simp [evalGo]
      | cons v t => simpa [evalGo] using ih bits ((!v) :: t)

/-- **C10.**  Whether evaluation fails depends only on the node sequence,
never on the assignment bitmask: if `evaluate` succeeds (returns a
non-negative value) for one bitmask, then it succeeds for every bitmask and
returns only 0 or 1 — so after `print_table`'s single pre-check, every
per-row `evaluate` call yields 0 or 1 and the `"FT"[evaluate(i)]` indexing
stays in bounds. -/
theorem evaluate_failure_bits_independent (ns : List Node) (b1 b2 : Nat)
    (h : 0 ≤ evaluate ns b1) :
    0 ≤ evaluate ns b2 ∧ (evaluate ns b2 = 0 ∨ evaluate ns b2 = 1) := by
  have hiff := evalGo_neg_iff ns b1 b2 [] [] rfl
  have h2 : ¬ evalGo b2 ns [] < 0 := by
    intro hneg
    have h3 : evaluate ns b1 < 0 := hiff.mpr hneg
    omega
  have hmem := evalGo_mem ns b2 []
  unfold evaluate at h ⊢
  exact ⟨by omega, by rcases hmem with h3 | h3 | h3 | h3 | h3 <;> omega⟩

/-- Witness for `evaluate_failure_bits_independent`: the one-variable program
succeeds at bitmask 0, hence succeeds at bitmask 7 with a 0/1 result. -/
theorem evaluate_failure_bits_independent_witness :
    0 ≤ evaluate [.var 0] 0 ∧
      (0 ≤ evaluate [.var 0] 7 ∧ (evaluate [.var 0] 7 = 0 ∨ evaluate [.var 0] 7 = 1)) :=
  ⟨by decide, evaluate_failure_bits_independent [.var 0] 0 7 (by decide)⟩

/-- **C9.**  `print_table` performs one evaluation (at bitmask 0) before
printing anything: each structural failure is reported as the matching error
— stack overflow for `-1`, underflow for `-2`, leftover values for `-3` —
and then neither the header nor any row is printed; only when the pre-check
succeeds is the full table produced. -/
theorem printTable_precheck (vars : List String) (ns : List Node) :
    (evaluate ns 0 = -1 → printTable vars ns = .error .overflow) ∧
    (evaluate ns 0 = -2 → printTable vars ns = .error .underflow) ∧
    (evaluate ns 0 = -3 → printTable vars ns = .error .leftover) ∧
    (evaluate ns 0 < 0 → ∀ t, printTable vars ns ≠ .ok t) ∧
    (0 ≤ evaluate ns 0 →
      printTable vars ns =
        .ok { header := vars, rows := (rowMasks vars.length).map (tableRow vars.length ns) }) := by
  refine ⟨?_, ?_, ?_, ?_, ?_⟩ <;> intro h
  · simp [printTable, h]
  · simp [printTable, h]
  · simp [printTable, h]
  · intro t
    simp [printTable, h]
  · simp [printTable, Int.not_lt.mpr h]

/-- Witness for `printTable_precheck`: a lone operator node underflows the
pre-check, so the underflow diagnostic is produced and no table. -/
theorem printTable_precheck_witness :
    printTable [] [.op .OR] = .error .underflow :=
  (printTable_precheck [] [.op .OR]).2.1 (by decide)

theorem countdown_length (m : Nat) : (countdown m).length = m := by
  induction m with
  | zero => rfl
  | succ p ih => simp [countdown, ih]

theorem countdown_getElem (m : Nat) :
    ∀ k, k < m → (countdown m)[k]? = some (m - 1 - k) := by
  induction m with
  | zero => intro k hk; omega
  | succ p ih =>
    intro k hk
    cases k with
    | zero => simp [countdown]
    | succ k2 =>
      show (p :: countdown p)[k2 + 1]? = some (p + 1 - 1 - (k2 + 1))
      rw [List.getElem?_cons_succ, ih k2 (by omega)]
      congr 1
      omega

theorem countdown_head (m : Nat) (h : 0 < m) : (countdown m).head? = some (m - 1) := by
  cases m with
  | zero => omega
  | succ p => rfl

/-- The last element produced by the countdown loop, through a `map`, is the
image of mask 0. -/
theorem countdown_map_getLast {α : Type} (f : Nat → α) (m : Nat) (h : 0 < m) :
    ((countdown m).map f).getLast? = some (f 0) := by
  induction m with
  | zero => omega
  | succ p ih =>
    cases p with
    | zero => rfl
    | succ q =>
      show (f (q + 1) :: ((countdown (q + 1)).map f)).getLast? = some (f 0)
      have hq : (countdown (q + 1)).map f = f q :: (countdown q).map f := rfl
      rw [hq, List.getLast?_cons_cons, ← hq]
      exact ih (by omega)

/-- The first printed row (bitmask `2^n - 1`) shows every variable true. -/
theorem tableRow_top (n : Nat) (ns : List Node) :
    tableRow n ns (2 ^ n - 1) = (List.replicate n true, evaluate ns (2 ^ n - 1)) := by
  unfold tableRow
  refine congrArg (fun l => (l, evaluate ns (2 ^ n - 1))) ?_
  refine List.eq_replicate_iff.mpr ⟨by simp, ?_⟩
  intro b hb
  obtain ⟨x, hx, rfl⟩ := List.mem_map.mp hb
  have hxn : x < n := List.mem_range.mp hx
  simp [Nat.testBit_two_pow_sub_one, hxn]

/-- The last printed row (bitmask `0`) shows every variable false. -/
theorem tableRow_bot (n : Nat) (ns : List Node) :
    tableRow n ns 0 = (List.replicate n false, evaluate ns 0) := by
  unfold tableRow
  refine congrArg (fun l => (l, evaluate ns 0)) ?_
  refine List.eq_replicate_iff.mpr ⟨by simp, ?_⟩
  intro b hb
  obtain ⟨x, hx, rfl⟩ := List.mem_map.mp hb
  simp [Nat.zero_testBit]

/-- **C8.**  For every successfully printed table over `n ≤ 20` variables
there are exactly `2^n` data rows, enumerated in descending bitmask order —
the `k`-th row is the row of bitmask `2^n - 1 - k` — so the first row assigns
every variable true and the last row assigns every variable false. -/
theorem table_rows_enumeration (vars : List String) (ns : List Node) (t : Table)
    (_hn : vars.length ≤ 20) (h : printTable vars ns = .ok t) :
    t.rows.length = 2 ^ vars.length ∧
    (∀ k, k < 2 ^ vars.length →
        t.rows[k]? = some (tableRow vars.length ns (2 ^ vars.length - 1 - k))) ∧
    t.rows.head? = some (List.replicate vars.length true, evaluate ns (2 ^ vars.length - 1)) ∧
    t.rows.getLast? = some (List.replicate vars.length false, evaluate ns 0) := by
  have hpos : 0 < 2 ^ vars.length := pow_pos (by decide) vars.length
  have hrows : t.rows = (rowMasks vars.length).map (tableRow vars.length ns) := by
    unfold printTable at h
    by_cases hf : evaluate ns 0 < 0
    · simp [hf] at h
    · simp only [hf, if_false, Except.ok.injEq] at h
      rw [← h]
  have hlen : t.rows.length = 2 ^ vars.length := by
    rw [hrows, List.length_map, rowMasks, countdown_length]
  refine ⟨hlen, ?_, ?_, ?_⟩
  · intro k hk
    rw [hrows, List.getElem?_map]
    unfold rowMasks
    rw [countdown_getElem _ k hk]
    rfl
  · rw [hrows, rowMasks, List.head?_map, countdown_head _ hpos]
    simp [tableRow_top]
  · rw [hrows, rowMasks, countdown_map_getLast _ _ hpos, tableRow_bot]

/-- Witness for `table_rows_enumeration` at the one-variable expression `A`:
the table has `2^1` rows, first row all-true, last row all-false. -/
theorem table_rows_enumeration_witness :
    ({ header := ["A"], rows := [([true], 1), ([false], 0)] } : Table).rows.length =
      2 ^ (["A"] : List String).length ∧
    ({ header := ["A"], rows := [([true], 1), ([false], 0)] } : Table).rows.head? =
      some (List.replicate (["A"] : List String).length true,
        evaluate [.var 0] (2 ^ (["A"] : List String).length - 1)) := by
  have happ := table_rows_enumeration ["A"] [.var 0]
    { header := ["A"], rows := [([true], 1), ([false], 0)] } (by decide) rfl
  exact ⟨happ.1, happ.2.2.1⟩

end Ttgen
